import Mathlib

/-!
Shallow embedding of the `codecrafters-http-server-rust` core
(`src/http.rs` and `src/main.rs`): request parsing, route dispatch,
encoding negotiation, header synthesis and response serialization.

Rust strings are modelled as `List Char`; raw wire data as `List Nat`
(one entry per byte, each < 256).  The filesystem and the gzip
compressor are external collaborators and are passed in explicitly
(the filesystem as a map from path to file bytes, the compressor as a
function argument), mirroring the fact that `flate2` and `std::fs` are
outside the repository.
-/

set_option maxHeartbeats 1000000

namespace HttpServer

/-- Rust strings are UTF-8; we model them as their character lists. -/
abbrev Str := List Char

/-- The two-character line terminator `"\r\n"`. -/
def crlf : Str := ['\r', '\n']

/-- `char::is_whitespace` from Rust: the Unicode `White_Space` property. -/
def rustIsWhitespace (c : Char) : Bool :=
  Decidable.decide ((9 ≤ c.toNat ∧ c.toNat ≤ 13) ∨ c.toNat = 0x20 ∨ c.toNat = 0x85 ∨
    c.toNat = 0xA0 ∨ c.toNat = 0x1680 ∨ (0x2000 ≤ c.toNat ∧ c.toNat ≤ 0x200A) ∨
    c.toNat = 0x2028 ∨ c.toNat = 0x2029 ∨ c.toNat = 0x202F ∨ c.toNat = 0x205F ∨
    c.toNat = 0x3000)

/-- UTF-8 encoding of one character, as in Rust's `str::as_bytes`
representation of the character. -/
def encodeChar (c : Char) : List Nat :=
  let n := c.toNat
  if n < 0x80 then [n]
  else if n < 0x800 then [0xC0 + n / 64, 0x80 + n % 64]
  else if n < 0x10000 then
    [0xE0 + n / 4096, 0x80 + (n / 64) % 64, 0x80 + n % 64]
  else
    [0xF0 + n / 0x40000, 0x80 + (n / 4096) % 64, 0x80 + (n / 64) % 64,
      0x80 + n % 64]

/-- UTF-8 encoding of a string (Rust `str::as_bytes`). -/
def utf8EncodeChars (s : Str) : List Nat := s.flatMap encodeChar

/-- Is `b` a UTF-8 continuation byte (`0x80 ..= 0xBF`)? -/
def isCont (b : Nat) : Bool := Decidable.decide (0x80 ≤ b ∧ b ≤ 0xBF)

/-- One step of lossy UTF-8 decoding: given the first byte `b` and the
remaining bytes, produce the decoded character (U+FFFD on an invalid
subsequence, per the maximal-subpart rule of `String::from_utf8_lossy`)
and the bytes at which decoding resumes. -/
def utf8DecodeStep (b : Nat) (rest : List Nat) : Char × List Nat :=
  if b ≤ 0x7F then (Char.ofNat b, rest)
  else if 0xC2 ≤ b ∧ b ≤ 0xDF then
    match rest with
    | [] => ('�', [])
    | b1 :: rest1 =>
      if isCont b1 then (Char.ofNat ((b - 0xC0) * 64 + (b1 - 0x80)), rest1)
      else ('�', rest)
  else if 0xE0 ≤ b ∧ b ≤ 0xEF then
    match rest with
    | [] => ('�', [])
    | b1 :: rest1 =>
      if (b = 0xE0 ∧ 0xA0 ≤ b1 ∧ b1 ≤ 0xBF) ∨
         (0xE1 ≤ b ∧ b ≤ 0xEC ∧ isCont b1) ∨
         (b = 0xED ∧ 0x80 ≤ b1 ∧ b1 ≤ 0x9F) ∨
         (0xEE ≤ b ∧ b ≤ 0xEF ∧ isCont b1) then
        match rest1 with
        | [] => ('�', [])
        | b2 :: rest2 =>
          if isCont b2 then
            (Char.ofNat ((b - 0xE0) * 4096 + (b1 - 0x80) * 64 + (b2 - 0x80)),
              rest2)
          else ('�', rest1)
      else ('�', rest)
  else if 0xF0 ≤ b ∧ b ≤ 0xF4 then
    match rest with
    | [] => ('�', [])
    | b1 :: rest1 =>
      if (b = 0xF0 ∧ 0x90 ≤ b1 ∧ b1 ≤ 0xBF) ∨
         (0xF1 ≤ b ∧ b ≤ 0xF3 ∧ isCont b1) ∨
         (b = 0xF4 ∧ 0x80 ≤ b1 ∧ b1 ≤ 0x8F) then
        match rest1 with
        | [] => ('�', [])
        | b2 :: rest2 =>
          if isCont b2 then
            match rest2 with
            | [] => ('�', [])
            | b3 :: rest3 =>
              if isCont b3 then
                (Char.ofNat ((b - 0xF0) * 0x40000 + (b1 - 0x80) * 4096 +
                    (b2 - 0x80) * 64 + (b3 - 0x80)), rest3)
              else ('�', rest2)
          else ('�', rest1)
      else ('�', rest)
  else ('�', rest)

/-- The resume point of a decode step never grows the byte list. -/
theorem utf8DecodeStep_length (b : Nat) (rest : List Nat) :
    (utf8DecodeStep b rest).2.length ≤ rest.length := by
  unfold utf8DecodeStep
  repeat' split
  all_goals simp_all
  all_goals omega

/-- Fuel-based worker for lossy UTF-8 decoding (structural recursion on
the fuel, which starts at the byte count and never runs out because
each step consumes at least one byte). -/
def utf8LossyGo : Nat → List Nat → List Char
  | _, [] => []
  | 0, _ :: _ => []
  | fuel + 1, b :: rest =>
    (utf8DecodeStep b rest).1 :: utf8LossyGo fuel (utf8DecodeStep b rest).2

/-- Lossy UTF-8 decoding, as in Rust's `String::from_utf8_lossy`
(`src/http.rs` line 38): each maximal invalid subsequence prefix is
replaced by one U+FFFD replacement character, resuming at the byte after
the longest valid prefix of the failed sequence. -/
def utf8LossyAux (l : List Nat) : List Char := utf8LossyGo l.length l

/-- Any sufficient fuel computes the same decoding. -/
theorem utf8LossyGo_congr :
    ∀ (f1 f2 : Nat) (l : List Nat), l.length ≤ f1 → l.length ≤ f2 →
      utf8LossyGo f1 l = utf8LossyGo f2 l := by
  intro f1
  induction f1 with
  | zero =>
    intro f2 l h1 _
    have : l = [] := List.length_eq_zero.mp (Nat.le_zero.mp h1)
    subst this
    cases f2 <;> rfl
  | succ k ih =>
    intro f2 l h1 h2
    cases l with
    | nil => cases f2 <;> rfl
    | cons b rest =>
      cases f2 with
      | zero => simp at h2
      | succ m =>
        simp only [utf8LossyGo]
        have hs := utf8DecodeStep_length b rest
        simp only [List.length_cons] at h1 h2
        rw [ih m (utf8DecodeStep b rest).2 (by omega) (by omega)]

/-- The defining step equation of the lossy decoder. -/
theorem utf8LossyAux_cons (b : Nat) (rest : List Nat) :
    utf8LossyAux (b :: rest) =
      (utf8DecodeStep b rest).1 ::
        utf8LossyAux (utf8DecodeStep b rest).2 := by
  unfold utf8LossyAux
  simp only [List.length_cons, utf8LossyGo]
  have hs := utf8DecodeStep_length b rest
  rw [utf8LossyGo_congr rest.length (utf8DecodeStep b rest).2.length
    (utf8DecodeStep b rest).2 hs (Nat.le_refl _)]

/-- Rust `str::split("\r\n")`: the list of segments between
non-overlapping occurrences of `"\r\n"`, scanned left to right
(never empty; a trailing separator yields a trailing empty segment). -/
def splitCRLF : Str → List Str
  | [] => [[]]
  | '\r' :: '\n' :: rest => [] :: splitCRLF rest
  | c :: rest =>
    match splitCRLF rest with
    | [] => [[c]]
    | h :: t => (c :: h) :: t

/-- Rust `str::split(',')`. -/
def splitComma : Str → List Str
  | [] => [[]]
  | ',' :: rest => [] :: splitComma rest
  | c :: rest =>
    match splitComma rest with
    | [] => [[c]]
    | h :: t => (c :: h) :: t

/-- Rust `str::trim`: remove leading and trailing Unicode whitespace. -/
def rustTrim (l : Str) : Str :=
  ((l.dropWhile rustIsWhitespace).reverse.dropWhile rustIsWhitespace).reverse

/-- Accumulator-based worker for `split_whitespace`; `acc` is the
current (possibly empty) word read so far. -/
def splitWSAux : Str → Str → List Str
  | [], acc => if acc.isEmpty then [] else [acc]
  | c :: rest, acc =>
    if rustIsWhitespace c then
      if acc.isEmpty then splitWSAux rest [] else acc :: splitWSAux rest []
    else splitWSAux rest (acc ++ [c])

/-- Rust `str::split_whitespace`: maximal runs of non-whitespace
characters, with no empty tokens. -/
def splitWS (l : Str) : List Str := splitWSAux l []

/-- Rust `str::split_once(": ")`: split at the first occurrence of the
separator `": "`, or `none` if it does not occur. -/
def splitOnceColonSpace : Str → Option (Str × Str)
  | [] => none
  | ':' :: ' ' :: rest => some ([], rest)
  | c :: rest =>
    (splitOnceColonSpace rest).map fun p => (c :: p.1, p.2)

/-- Fuel-based worker for `trim_start_matches` (structural on the fuel,
which starts at the string length and suffices because each removal of
a non-empty prefix shortens the string). -/
def trimGo : Nat → Str → Str → Str
  | 0, _, l => l
  | fuel + 1, pat, l =>
    if ¬pat.isEmpty ∧ pat.isPrefixOf l then
      trimGo fuel pat (l.drop pat.length)
    else l

/-- Rust `str::trim_start_matches(pat)`: repeatedly remove the prefix
`pat` while it matches (for a non-empty `pat`). -/
def trimStartMatches (pat : Str) (l : Str) : Str := trimGo l.length pat l

/-- Any sufficient fuel computes the same trimming. -/
theorem trimGo_congr :
    ∀ (f1 f2 : Nat) (pat l : Str), l.length ≤ f1 → l.length ≤ f2 →
      trimGo f1 pat l = trimGo f2 pat l := by
  intro f1
  induction f1 with
  | zero =>
    intro f2 pat l h1 _
    have : l = [] := List.length_eq_zero.mp (Nat.le_zero.mp h1)
    subst this
    cases f2 with
    | zero => rfl
    | succ m =>
      simp only [trimGo]
      split
      · rename_i hcond
        cases pat with
        | nil => simp [List.isEmpty] at hcond
        | cons c cs => simp [List.isPrefixOf] at hcond
      · rfl
  | succ k ih =>
    intro f2 pat l h1 h2
    cases f2 with
    | zero =>
      have : l = [] := List.length_eq_zero.mp (Nat.le_zero.mp h2)
      subst this
      simp only [trimGo]
      split
      · rename_i hcond
        cases pat with
        | nil => simp [List.isEmpty] at hcond
        | cons c cs => simp [List.isPrefixOf] at hcond
      · rfl
    | succ m =>
      simp only [trimGo]
      split
      · rename_i hcond
        have hp := List.isPrefixOf_iff_prefix.mp hcond.2
        have hpos : 0 < pat.length := by
          cases pat with
          | nil => simp [List.isEmpty] at hcond
          | cons _ _ => simp
        have hle := hp.length_le
        have hdl := List.length_drop pat.length l
        exact ih m pat (l.drop pat.length) (by omega) (by omega)
      · rfl

/-- `HashMap::get` on our association-list model of `HashMap`:
the value stored at `k`, if any. -/
def hmGet (m : List (Str × Str)) (k : Str) : Option Str :=
  (m.find? fun p => p.1 == k).map fun p => p.2

/-- `HashMap::insert` on the association-list model: overwrite the
value at an existing key, otherwise append the new binding. -/
def hmInsert (m : List (Str × Str)) (k v : Str) : List (Str × Str) :=
  if m.any fun p => p.1 == k then
    m.map fun p => if p.1 == k then (k, v) else p
  else m ++ [(k, v)]

/-- Decimal rendering of a number (Rust `usize::to_string`). -/
def natToStr (n : Nat) : Str := (Nat.repr n).data

/-- `HttpMethod` from `src/http.rs` lines 125-130. -/
inductive HttpMethod where
  | get
  | post
deriving DecidableEq, Repr

/-- `Status` from `src/http.rs` lines 132-138. -/
inductive Status where
  | ok
  | created
  | notFound
  | internalServerError
deriving DecidableEq, Repr

/-- `TextContentType` from `src/http.rs` lines 181-184. -/
inductive TextContentType where
  | plain
deriving DecidableEq, Repr

/-- `ApplicationContentType` from `src/http.rs` lines 186-189. -/
inductive ApplicationContentType where
  | octetStream
deriving DecidableEq, Repr

/-- `ContentType` from `src/http.rs` lines 191-195. -/
inductive ContentType where
  | text (t : TextContentType)
  | application (a : ApplicationContentType)
deriving DecidableEq, Repr

/-- `HttpMethod::to_string` (`src/http.rs` lines 141-146). -/
def methodToString : HttpMethod → Str
  | .get => "GET".data
  | .post => "POST".data

/-- Errors of `Request::from_raw`, plus a constructor for the `panic!`
in `HttpMethod::from_string` (`src/http.rs` line 152), so that parsing
is a total function into a result type. -/
inductive ParseErr where
  | emptyRequest
  | malformedRequestLine
  | malformedHeader (line : Str)
  | panicUnknownMethod (token : Str)
deriving DecidableEq, Repr

/-- `HttpMethod::from_string` (`src/http.rs` lines 148-154); the
`panic!` arm is modelled as a returned error value. -/
def methodFromString (s : Str) : Except ParseErr HttpMethod :=
  if s = "GET".data then .ok .get
  else if s = "POST".data then .ok .post
  else .error (.panicUnknownMethod s)

/-- `Status::get_status_code` (`src/http.rs` lines 158-165). -/
def getStatusCode : Status → Nat
  | .ok => 200
  | .created => 201
  | .notFound => 404
  | .internalServerError => 500

/-- `Status::get_text_code` (`src/http.rs` lines 167-174). -/
def getTextCode : Status → Str
  | .ok => "OK".data
  | .created => "Created".data
  | .notFound => "Not Found".data
  | .internalServerError => "Internal Server Error".data

/-- `Status::to_string` (`src/http.rs` lines 176-178):
`format!("{} {}", code, text)`. -/
def statusToString (s : Status) : Str :=
  natToStr (getStatusCode s) ++ " ".data ++ getTextCode s

/-- `ContentType::to_string` (`src/http.rs` lines 213-219) together
with the subtype `to_string`s. -/
def contentTypeToString : ContentType → Str
  | .text .plain => "text/plain".data
  | .application .octetStream => "application/octet-stream".data

/-- `Request` from `src/http.rs` lines 7-14 (headers as an association
list standing for the `HashMap`). -/
structure RequestM where
  method : HttpMethod
  path : Str
  httpVersion : Str
  headers : List (Str × Str)
  body : Option Str
deriving DecidableEq, Repr

/-- `Content` as used by `src/main.rs` (body is `Vec<u8>` and there is
an optional `encoding` token). -/
structure ContentM where
  contentType : ContentType
  body : List Nat
  encoding : Option Str
deriving DecidableEq, Repr

/-- `Response` from `src/http.rs` lines 95-101, with `Content` as in
`src/main.rs`. -/
structure ResponseM where
  httpVersion : Str
  status : Status
  headers : List (Str × Str)
  content : Option ContentM
deriving DecidableEq, Repr

/-- The header-parsing loop of `Request::from_raw` (`src/http.rs` lines
52-65): walk the lines from index `i`, inserting `": "`-split headers,
stopping at the first empty line with `body_start = i + 1`.  If the
loop runs off the end without meeting an empty line, `body_start`
keeps its initial value `0` (this mirrors the `let mut body_start = 0`
sentinel in the source). -/
def headerLoop : List Str → Nat → List (Str × Str) →
    Except ParseErr (List (Str × Str) × Nat)
  | [], _, acc => .ok (acc, 0)
  | line :: rest, i, acc =>
    if line.isEmpty then .ok (acc, i + 1)
    else
      match splitOnceColonSpace line with
      | some (k, v) => headerLoop rest (i + 1) (hmInsert acc k v)
      | none => .error (.malformedHeader line)

/-- `Request::from_raw` (`src/http.rs` lines 37-79): lossy UTF-8
decoding, split on `"\r\n"`, request line of exactly 3
whitespace-separated tokens, `": "`-separated headers up to the first
empty line, and the remaining lines rejoined with `"\r\n"` as the body
whenever `body_start < lines.len()`. -/
def fromRaw (input : List Nat) : Except ParseErr RequestM :=
  let lines := splitCRLF (utf8LossyAux input)
  match lines.head? with
  | none => .error .emptyRequest
  | some requestLine =>
    match splitWS requestLine with
    | [m, p, v] =>
      match methodFromString m with
      | .error e => .error e
      | .ok method =>
        match headerLoop (lines.drop 1) 1 [] with
        | .error e => .error e
        | .ok (headers, bodyStart) =>
          let body :=
            if bodyStart < lines.length then
              some (List.intercalate crlf (lines.drop bodyStart))
            else none
          .ok ⟨method, p, v, headers, body⟩
    | _ => .error .malformedRequestLine

/-- The filesystem collaborator: a map from file path to file bytes. -/
abbrev FS := Str → Option (List Nat)

/-- The gzip collaborator (`flate2` in the source, `src/main.rs` lines
208-212): compress a byte vector, possibly failing. -/
abbrev Gzipper := List Nat → Except Unit (List Nat)

/-- `read_file_content` (`src/main.rs` lines 196-202).
`fs::read_to_string` succeeds exactly on valid UTF-8 file bytes, which
is equivalent to the bytes re-encoding to themselves after decoding;
in that case `content.as_bytes().to_vec()` is exactly the file bytes. -/
def readFileContent (fs : FS) (path : Str) : Except Unit ContentM :=
  match fs path with
  | none => .error ()
  | some bytes =>
    if utf8EncodeChars (utf8LossyAux bytes) = bytes then
      .ok ⟨.application .octetStream, bytes, none⟩
    else .error ()

/-- The routing `if`-chain of `handle_request` (`src/main.rs` lines
56-130): path match first, method only inside the `/files/` branch.
`none` models the `unwrap` panic on a missing `User-Agent` header.
The `File::create`/`write` pair is modelled as an always-successful
store into the filesystem map (a body of `None` leaves a zero-byte
file, matching the `_ => Created` arm). -/
def dispatch (req : RequestM) (rootDir : Str) (fs : FS) :
    Option (Status × Option ContentM × FS) :=
  if req.path = "/".data then some (.ok, none, fs)
  else if req.path = "/user-agent".data then
    match hmGet req.headers "User-Agent".data with
    | none => none
    | some ua => some (.ok, some ⟨.text .plain, utf8EncodeChars ua, none⟩, fs)
  else if ("/echo/".data).isPrefixOf req.path then
    some (.ok,
      some ⟨.text .plain,
        utf8EncodeChars (trimStartMatches "/echo/".data req.path), none⟩, fs)
  else if ("/files/".data).isPrefixOf req.path then
    match req.method with
    | .get =>
      match readFileContent fs
          (rootDir ++ trimStartMatches "/files/".data req.path) with
      | .ok c => some (.ok, some c, fs)
      | .error _ => some (.notFound, none, fs)
    | .post =>
      some (.created, none,
        fun p =>
          if p = rootDir ++ trimStartMatches "/files/".data req.path then
            some (match req.body with
              | some b => utf8EncodeChars b
              | none => [])
          else fs p)
  else some (.notFound, none, fs)

/-- The accepted-encodings set of `handle_request` (`src/main.rs` lines
132-138): the `Accept-Encoding` header value split on `','`, each token
trimmed; an absent header gives the empty set. -/
def acceptedEncodings (req : RequestM) : List Str :=
  match hmGet req.headers "Accept-Encoding".data with
  | none => []
  | some v => (splitComma v).map rustTrim

/-- The compression step of `handle_request` (`src/main.rs` lines
140-157): if `gzip` is among the accepted encodings and content is
present, replace the body by its gzip compression and set
`encoding = "gzip"`; a failed compression degrades the whole response
to 500 with no content. -/
def negotiate (req : RequestM) (gz : Gzipper) (status : Status)
    (content : Option ContentM) : Status × Option ContentM :=
  if (acceptedEncodings req).contains "gzip".data then
    match content with
    | some c =>
      match gz c.body with
      | .ok payload =>
        (status, some ⟨c.contentType, payload, some "gzip".data⟩)
      | .error _ => (.internalServerError, none)
    | none => (status, none)
  else (status, content)

/-- The header-synthesis block of `handle_request` (`src/main.rs` lines
159-172): starting from an empty map, insert `Content-Type` and
`Content-Length` when content is present, plus `Content-Encoding` when
its encoding is set. -/
def mkHeaders (content : Option ContentM) : List (Str × Str) :=
  match content with
  | none => []
  | some c =>
    let h1 := hmInsert [] "Content-Type".data (contentTypeToString c.contentType)
    let h2 := hmInsert h1 "Content-Length".data (natToStr c.body.length)
    match c.encoding with
    | some e => hmInsert h2 "Content-Encoding".data e
    | none => h2

/-- `handle_request` (`src/main.rs` lines 56-180): dispatch, then
encoding negotiation, then header synthesis; the response echoes the
request's `http_version`.  `none` models a panic. -/
def handleRequest (req : RequestM) (rootDir : Str) (gz : Gzipper)
    (fs : FS) : Option (ResponseM × FS) :=
  match dispatch req rootDir fs with
  | none => none
  | some (st, ct, fs') =>
    some (⟨req.httpVersion, (negotiate req gz st ct).1,
      mkHeaders (negotiate req gz st ct).2, (negotiate req gz st ct).2⟩, fs')

/-- One connection of `handle_connection` (`src/main.rs` lines
182-194) after the socket read: parse the raw bytes, then handle the
request; `none` models the `expect`/panic paths. -/
def processConnection (raw : List Nat) (rootDir : Str) (gz : Gzipper)
    (fs : FS) : Option (ResponseM × FS) :=
  match fromRaw raw with
  | .error _ => none
  | .ok req => handleRequest req rootDir gz fs

/-- `Response::to_string` (`src/http.rs` lines 103-122) followed by
`as_bytes` (`src/main.rs` line 191):
`format!("{http_version} {status}\r\n{headers}\r\n\r\n{body}")`, where
`headers` joins `"{key}: {value}"` lines with `"\r\n"` and the body
bytes are appended verbatim (empty segment when content is absent). -/
def toWire (r : ResponseM) : List Nat :=
  utf8EncodeChars
    (r.httpVersion ++ " ".data ++ statusToString r.status ++ crlf ++
      List.intercalate crlf
        (r.headers.map fun p => p.1 ++ ": ".data ++ p.2) ++
      crlf ++ crlf) ++
  (match r.content with
   | some c => c.body
   | none => [])

theorem utf8EncodeChars_append (a b : Str) :
    utf8EncodeChars (a ++ b) = utf8EncodeChars a ++ utf8EncodeChars b := by
  simp [utf8EncodeChars]

theorem utf8DecodeStep_ascii (b : Nat) (bs : List Nat) (h : b ≤ 0x7F) :
    utf8DecodeStep b bs = (Char.ofNat b, bs) := by
  unfold utf8DecodeStep
  rw [if_pos h]

theorem utf8DecodeStep_two (b b1 : Nat) (bs : List Nat)
    (h : 0xC2 ≤ b ∧ b ≤ 0xDF) (hc : isCont b1 = true) :
    utf8DecodeStep b (b1 :: bs) =
      (Char.ofNat ((b - 0xC0) * 64 + (b1 - 0x80)), bs) := by
  unfold utf8DecodeStep
  rw [if_neg (by omega), if_pos h]
  simp [hc]

theorem utf8DecodeStep_three (b b1 b2 : Nat) (bs : List Nat)
    (h : 0xE0 ≤ b ∧ b ≤ 0xEF)
    (hcond : (b = 0xE0 ∧ 0xA0 ≤ b1 ∧ b1 ≤ 0xBF) ∨
      (0xE1 ≤ b ∧ b ≤ 0xEC ∧ isCont b1 = true) ∨
      (b = 0xED ∧ 0x80 ≤ b1 ∧ b1 ≤ 0x9F) ∨
      (0xEE ≤ b ∧ b ≤ 0xEF ∧ isCont b1 = true))
    (hc2 : isCont b2 = true) :
    utf8DecodeStep b (b1 :: b2 :: bs) =
      (Char.ofNat ((b - 0xE0) * 4096 + (b1 - 0x80) * 64 + (b2 - 0x80)),
        bs) := by
  unfold utf8DecodeStep
  rw [if_neg (by omega), if_neg (by omega), if_pos h]
  simp [hcond, hc2]

theorem utf8DecodeStep_four (b b1 b2 b3 : Nat) (bs : List Nat)
    (h : 0xF0 ≤ b ∧ b ≤ 0xF4)
    (hcond : (b = 0xF0 ∧ 0x90 ≤ b1 ∧ b1 ≤ 0xBF) ∨
      (0xF1 ≤ b ∧ b ≤ 0xF3 ∧ isCont b1 = true) ∨
      (b = 0xF4 ∧ 0x80 ≤ b1 ∧ b1 ≤ 0x8F))
    (hc2 : isCont b2 = true) (hc3 : isCont b3 = true) :
    utf8DecodeStep b (b1 :: b2 :: b3 :: bs) =
      (Char.ofNat ((b - 0xF0) * 0x40000 + (b1 - 0x80) * 4096 +
        (b2 - 0x80) * 64 + (b3 - 0x80)), bs) := by
  unfold utf8DecodeStep
  rw [if_neg (by omega), if_neg (by omega), if_neg (by omega), if_pos h]
  simp [hcond, hc2, hc3]

/-- Decoding after encoding recovers the character and resumes exactly
after its bytes. -/
theorem utf8LossyAux_encodeChar (c : Char) (bs : List Nat) :
    utf8LossyAux (encodeChar c ++ bs) = c :: utf8LossyAux bs := by
  have hval : Nat.isValidChar c.toNat := c.valid
  have hn : c.toNat < 0xD800 ∨ (0xDFFF < c.toNat ∧ c.toNat < 0x110000) := hval
  by_cases h1 : c.toNat < 0x80
  · simp only [encodeChar, if_pos h1, List.cons_append, List.nil_append]
    rw [utf8LossyAux_cons]
    rw [utf8DecodeStep_ascii _ _ (by omega)]
    simp [Char.ofNat_toNat]
  · by_cases h2 : c.toNat < 0x800
    · simp only [encodeChar, if_neg h1, if_pos h2, List.cons_append,
        List.nil_append]
      rw [utf8LossyAux_cons]
      rw [utf8DecodeStep_two _ _ _ (by omega)
        (by simp only [isCont, decide_eq_true_eq]; omega)]
      simp only []
      rw [show (0xC0 + c.toNat / 64 - 0xC0) * 64 +
          (0x80 + c.toNat % 64 - 0x80) = c.toNat from by omega,
        Char.ofNat_toNat]
    · by_cases h3 : c.toNat < 0x10000
      · simp only [encodeChar, if_neg h1, if_neg h2, if_pos h3,
          List.cons_append, List.nil_append]
        rw [utf8LossyAux_cons]
        rw [utf8DecodeStep_three _ _ _ _ (by omega)
          (by simp only [isCont, decide_eq_true_eq]; omega)
          (by simp only [isCont, decide_eq_true_eq]; omega)]
        simp only []
        rw [show (0xE0 + c.toNat / 4096 - 0xE0) * 4096 +
            (0x80 + c.toNat / 64 % 64 - 0x80) * 64 +
            (0x80 + c.toNat % 64 - 0x80) = c.toNat from by omega,
          Char.ofNat_toNat]
      · simp only [encodeChar, if_neg h1, if_neg h2, if_neg h3,
          List.cons_append, List.nil_append]
        rw [utf8LossyAux_cons]
        rw [utf8DecodeStep_four _ _ _ _ _ (by omega)
          (by simp only [isCont, decide_eq_true_eq]; omega)
          (by simp only [isCont, decide_eq_true_eq]; omega)
          (by simp only [isCont, decide_eq_true_eq]; omega)]
        simp only []
        rw [show (0xF0 + c.toNat / 0x40000 - 0xF0) * 0x40000 +
            (0x80 + c.toNat / 4096 % 64 - 0x80) * 4096 +
            (0x80 + c.toNat / 64 % 64 - 0x80) * 64 +
            (0x80 + c.toNat % 64 - 0x80) = c.toNat from by omega,
          Char.ofNat_toNat]

/-- `String::from_utf8_lossy` is a left inverse of UTF-8 encoding. -/
theorem utf8LossyAux_encode (l : Str) :
    utf8LossyAux (utf8EncodeChars l) = l := by
  induction l with
  | nil => simp [utf8EncodeChars, utf8LossyAux, utf8LossyGo]
  | cons c cs ih =>
    show utf8LossyAux (encodeChar c ++ utf8EncodeChars cs) = c :: cs
    rw [utf8LossyAux_encodeChar, ih]

/-- `split` never returns an empty list of segments. -/
theorem splitCRLF_ne_nil (l : Str) : splitCRLF l ≠ [] := by
  rw [splitCRLF.eq_def]
  split
  · simp
  · simp
  · split <;> simp

theorem splitCRLF_crlf_cons (b : Str) :
    splitCRLF ('\r' :: '\n' :: b) = [] :: splitCRLF b := by
  simp [splitCRLF]

/-- Splitting a string that starts with a `"\r\n"`-free segment
followed by a separator yields that segment first. -/
theorem splitCRLF_append_crlf (a b : Str) (ha : '\r' ∉ a) :
    splitCRLF (a ++ '\r' :: '\n' :: b) = a :: splitCRLF b := by
  induction a with
  | nil => simp [splitCRLF_crlf_cons, splitCRLF_ne_nil]
  | cons c a ih =>
    have hc : c ≠ '\r' := fun h => ha (h ▸ List.mem_cons_self c a)
    have ha' : '\r' ∉ a := fun h => ha (List.mem_cons_of_mem c h)
    rw [List.cons_append, splitCRLF.eq_def]
    split
    · simp_all
    · rename_i heq
      exact absurd (List.cons.inj heq).1 hc
    · rename_i c' rest' hne heq
      obtain ⟨hc', hrest⟩ := List.cons.inj heq
      subst hc' hrest
      rw [ih ha']

/-- Rejoining the `"\r\n"`-split segments with `"\r\n"` restores the
string (the body-reassembly step of `Request::from_raw`). -/
theorem intercalate_splitCRLF (l : Str) :
    List.intercalate crlf (splitCRLF l) = l := by
  induction l using splitCRLF.induct with
  | case1 => simp [splitCRLF, List.intercalate]
  | case2 rest ih =>
    rw [splitCRLF_crlf_cons]
    obtain ⟨h, t, ht⟩ : ∃ h t, splitCRLF rest = h :: t := by
      cases hs : splitCRLF rest with
      | nil => exact absurd hs (splitCRLF_ne_nil rest)
      | cons h t => exact ⟨h, t, rfl⟩
    rw [ht] at ih ⊢
    simp only [List.intercalate, List.intersperse_cons_cons,
      List.flatten] at ih ⊢
    simp only [List.nil_append, crlf] at ih ⊢
    simp [ih]
  | case3 c rest hne hnil ih => exact absurd hnil (splitCRLF_ne_nil rest)
  | case4 c rest hne h t ht ih =>
    rw [splitCRLF.eq_def]
    split
    · simp_all
    · rename_i heq
      obtain ⟨hc, hrest⟩ := List.cons.inj heq
      exact absurd hrest (fun hr => hne _ hc hr)
    · rename_i c' rest' hne' heq
      obtain ⟨hc, hrest⟩ := List.cons.inj heq
      subst hc hrest
      rw [ht] at ih ⊢
      cases t with
      | nil =>
        simp [List.intercalate] at ih ⊢
        simp [ih]
      | cons t0 ts =>
        simp only [List.intercalate, List.intersperse_cons_cons,
          List.flatten] at ih ⊢
        simp_all

/-- Reading a whitespace-free word followed by a space emits the word
(prefixed by the pending accumulator). -/
theorem splitWSAux_word_space (w : Str) (acc : Str) (rest : Str)
    (hw : ∀ c ∈ w, rustIsWhitespace c = false) (hne : acc ++ w ≠ []) :
    splitWSAux (w ++ ' ' :: rest) acc = (acc ++ w) :: splitWSAux rest [] := by
  induction w generalizing acc with
  | nil =>
    simp only [List.append_nil] at hne ⊢
    simp only [List.nil_append, splitWSAux]
    rw [if_pos (by decide)]
    rw [if_neg (by simp [List.isEmpty_iff, hne])]
  | cons c w ih =>
    have hc : rustIsWhitespace c = false := hw c (List.mem_cons_self c w)
    simp only [List.cons_append, splitWSAux, hc, Bool.false_eq_true,
      if_false, List.append_eq]
    rw [ih (acc ++ [c]) (fun d hd => hw d (List.mem_cons_of_mem c hd))
      (by simp)]
    simp

/-- Reading a trailing whitespace-free word emits it with the pending
accumulator (or nothing when both are empty). -/
theorem splitWSAux_word_end (w : Str) (acc : Str)
    (hw : ∀ c ∈ w, rustIsWhitespace c = false) :
    splitWSAux w acc = if (acc ++ w).isEmpty then [] else [acc ++ w] := by
  induction w generalizing acc with
  | nil => simp [splitWSAux]
  | cons c w ih =>
    have hc : rustIsWhitespace c = false := hw c (List.mem_cons_self c w)
    simp only [splitWSAux, hc, Bool.false_eq_true, if_false]
    rw [ih (acc ++ [c]) (fun d hd => hw d (List.mem_cons_of_mem c hd))]
    simp

/-- A request line `"{m} {p} {v}"` of three whitespace-free non-empty
tokens splits into exactly those tokens. -/
theorem splitWS_three (m p v : Str)
    (hm : ∀ c ∈ m, rustIsWhitespace c = false) (hmne : m ≠ [])
    (hp : ∀ c ∈ p, rustIsWhitespace c = false) (hpne : p ≠ [])
    (hv : ∀ c ∈ v, rustIsWhitespace c = false) (hvne : v ≠ []) :
    splitWS (m ++ ' ' :: (p ++ ' ' :: v)) = [m, p, v] := by
  unfold splitWS
  rw [splitWSAux_word_space m [] _ hm (by simpa using hmne)]
  rw [splitWSAux_word_space p [] _ hp (by simpa using hpne)]
  rw [splitWSAux_word_end v [] hv]
  simp [List.isEmpty_iff, hvne]

/-- The header loop can only fail with a malformed-header error. -/
theorem headerLoop_error_shape (ls : List Str) (i : Nat)
    (acc : List (Str × Str)) (e : ParseErr)
    (h : headerLoop ls i acc = .error e) :
    ∃ line, e = .malformedHeader line := by
  induction ls generalizing i acc with
  | nil => simp [headerLoop] at h
  | cons line rest ih =>
    rw [headerLoop.eq_def] at h
    by_cases hemp : line.isEmpty
    · simp [hemp] at h
    · simp only [hemp, Bool.false_eq_true, if_false] at h
      cases hs : splitOnceColonSpace line with
      | none => rw [hs] at h; exact ⟨line, (Except.error.inj h).symm⟩
      | some kv => rw [hs] at h; exact ih _ _ h

/-- A successfully parsed method token renders back to itself. -/
theorem methodFromString_toString (m : Str) (mm : HttpMethod)
    (h : methodFromString m = .ok mm) : methodToString mm = m := by
  unfold methodFromString at h
  by_cases hg : m = "GET".data
  · rw [if_pos hg] at h
    cases h
    simp [methodToString, hg]
  · rw [if_neg hg] at h
    by_cases hp : m = "POST".data
    · rw [if_pos hp] at h
      cases h
      simp [methodToString, hp]
    · rw [if_neg hp] at h
      cases h

/-- Negotiation with no content never changes the status and keeps the
content absent. -/
theorem negotiate_none (req : RequestM) (gz : Gzipper) (st : Status) :
    negotiate req gz st none = (st, none) := by
  unfold negotiate
  split <;> rfl

/-- Every content value produced by the dispatcher has no encoding
set. -/
theorem dispatch_encoding_none (req : RequestM) (rootDir : Str) (fs : FS)
    (st : Status) (ct : Option ContentM) (fs' : FS)
    (h : dispatch req rootDir fs = some (st, ct, fs'))
    (c : ContentM) (hc : ct = some c) : c.encoding = none := by
  subst hc
  unfold dispatch at h
  split at h
  · simp at h
  · split at h
    · split at h
      · simp at h
      · simp only [Option.some.injEq, Prod.mk.injEq] at h
        obtain ⟨-, h2, -⟩ := h
        obtain rfl := h2
        rfl
    · split at h
      · simp only [Option.some.injEq, Prod.mk.injEq] at h
        obtain ⟨-, h2, -⟩ := h
        obtain rfl := h2
        rfl
      · split at h
        · split at h
          · split at h
            · rename_i hread
              simp only [Option.some.injEq, Prod.mk.injEq] at h
              obtain ⟨-, h2, -⟩ := h
              obtain rfl := h2
              unfold readFileContent at hread
              split at hread
              · simp at hread
              · split at hread
                · cases hread
                  rfl
                · simp at hread
            · simp at h
          · simp at h
        · simp at h

deriving instance DecidableEq for Except

/-- A gzip collaborator for concrete instantiations (compression is
external; any `Gzipper` works for the negotiation logic). -/
def gzOk : Gzipper := fun b => .ok b

/-- The empty filesystem. -/
def fsEmpty : FS := fun _ => none

/-- Modelled from the spec (§4.4, C9): the status line pairs each
status variant with the fixed code and reason phrase
`(200, OK), (201, Created), (404, Not Found),
(500, Internal Server Error)`. -/
def specStatusLine : Status → Str
  | .ok => "200 OK".data
  | .created => "201 Created".data
  | .notFound => "404 Not Found".data
  | .internalServerError => "500 Internal Server Error".data

/-- C2: the claim says that with no empty line among the CRLF-split
lines a well-formed request parses with `body = None`.  The code's
`body_start = 0` sentinel makes `body_start < lines.len()` true, so the
body becomes the entire input rejoined: evaluating the parser at the
well-formed request `"GET / HTTP/1.1"` (no trailing blank line) yields
`body = Some("GET / HTTP/1.1")`, not `None`. -/
theorem fromRaw_no_blank_line_body_bug :
    fromRaw (utf8EncodeChars "GET / HTTP/1.1".data) =
      .ok ⟨.get, "/".data, "HTTP/1.1".data, [],
        some "GET / HTTP/1.1".data⟩ ∧
    some "GET / HTTP/1.1".data ≠ (none : Option Str) := by
  constructor
  · decide
  · simp

/-- C9: serialization produces exactly
`"{http_version} {code} {reason}\r\n{headers joined by \r\n}\r\n\r\n{body}"`
with the status line given by the fixed code/reason table, the body
bytes appended verbatim, and an empty body segment (but the blank-line
separator still present) when content is absent. -/
theorem toWire_format (r : ResponseM) :
    toWire r =
      utf8EncodeChars (r.httpVersion ++ " ".data ++ specStatusLine r.status ++
        crlf ++
        List.intercalate crlf
          (r.headers.map fun p => p.1 ++ ": ".data ++ p.2) ++
        crlf ++ crlf) ++
      (match r.content with
       | some c => c.body
       | none => []) := by
  have hs : statusToString r.status = specStatusLine r.status := by
    cases r.status <;> rfl
  rw [toWire, hs]

/-- C4: every response produced by `handle_request` carries exactly the
headers derived from its content: none when content is absent;
`Content-Type` and `Content-Length` (the decimal byte length of the
post-compression body) when content is present; plus
`Content-Encoding` exactly when the content's encoding is set. -/
theorem handleRequest_headers_invariant (req : RequestM) (rootDir : Str)
    (gz : Gzipper) (fs : FS) (resp : ResponseM) (fs2 : FS)
    (h : handleRequest req rootDir gz fs = some (resp, fs2)) :
    (resp.content = none → resp.headers = []) ∧
    (∀ c, resp.content = some c →
      (c.encoding = none →
        resp.headers =
          [("Content-Type".data, contentTypeToString c.contentType),
           ("Content-Length".data, natToStr c.body.length)]) ∧
      (∀ e, c.encoding = some e →
        resp.headers =
          [("Content-Type".data, contentTypeToString c.contentType),
           ("Content-Length".data, natToStr c.body.length),
           ("Content-Encoding".data, e)])) := by
  unfold handleRequest at h
  cases hd : dispatch req rootDir fs with
  | none => rw [hd] at h; simp at h
  | some t =>
    obtain ⟨st, ct, fs'⟩ := t
    rw [hd] at h
    simp only [Option.some.injEq, Prod.mk.injEq] at h
    obtain ⟨rfl, rfl⟩ := h
    constructor
    · intro hnone
      simp only at hnone
      simp [mkHeaders, hnone]
    · intro c hc
      simp only at hc
      constructor
      · intro he
        simp [mkHeaders, hc, he, hmInsert]
      · intro e he
        simp [mkHeaders, hc, he, hmInsert]

/-- The concrete request of the C4 witness. -/
def wReqC4 : RequestM :=
  ⟨.get, "/echo/ab".data, "HTTP/1.1".data,
    [("Accept-Encoding".data, "gzip".data)], none⟩

/-- The concrete response of the C4 witness. -/
def wRespC4 : ResponseM :=
  ⟨"HTTP/1.1".data, .ok,
    [("Content-Type".data, "text/plain".data),
     ("Content-Length".data, "2".data),
     ("Content-Encoding".data, "gzip".data)],
    some ⟨.text .plain, utf8EncodeChars "ab".data, some "gzip".data⟩⟩

/-- C4 witness: a concrete echo request with gzip negotiation satisfies
the hypothesis and the derived-header conclusion. -/
theorem handleRequest_headers_invariant_witness :
    handleRequest wReqC4 [] gzOk fsEmpty = some (wRespC4, fsEmpty) ∧
    ((wRespC4.content = none → wRespC4.headers = []) ∧
     (∀ c, wRespC4.content = some c →
       (c.encoding = none →
         wRespC4.headers =
           [("Content-Type".data, contentTypeToString c.contentType),
            ("Content-Length".data, natToStr c.body.length)]) ∧
       (∀ e, c.encoding = some e →
         wRespC4.headers =
           [("Content-Type".data, contentTypeToString c.contentType),
            ("Content-Length".data, natToStr c.body.length),
            ("Content-Encoding".data, e)]))) :=
  ⟨by rfl,
    handleRequest_headers_invariant wReqC4 [] gzOk fsEmpty wRespC4 fsEmpty
      (by rfl)⟩

/-- C7: whenever the request line's method token is neither `"GET"` nor
`"POST"`, parsing — modelled as a total function into a result type,
with the source's `panic!` mapped to an error value — returns an error
(either the unknown-method error or, when the token count is not 3, the
malformed-request-line error). -/
theorem fromRaw_unknown_method_error (raw : List Nat) (l m : Str)
    (hl : (splitCRLF (utf8LossyAux raw)).head? = some l)
    (hm : (splitWS l).head? = some m)
    (hg : m ≠ "GET".data) (hp : m ≠ "POST".data) :
    ∃ e, fromRaw raw = .error e := by
  obtain ⟨ts, hts⟩ : ∃ ts, splitWS l = m :: ts := by
    cases hs : splitWS l with
    | nil => rw [hs] at hm; simp at hm
    | cons a ts =>
      rw [hs] at hm
      simp only [List.head?_cons, Option.some.injEq] at hm
      exact ⟨ts, by rw [hm]⟩
  simp only [fromRaw, hl]
  rw [hts]
  match ts with
  | [] => exact ⟨.malformedRequestLine, rfl⟩
  | [p] => exact ⟨.malformedRequestLine, rfl⟩
  | p :: v :: t :: rest => exact ⟨.malformedRequestLine, rfl⟩
  | [p, v] =>
    refine ⟨.panicUnknownMethod m, ?_⟩
    simp only [methodFromString, if_neg hg, if_neg hp]

/-- C7 witness: the method token `"BREW"` yields a parse error. -/
theorem fromRaw_unknown_method_error_witness :
    (splitCRLF (utf8LossyAux
        (utf8EncodeChars "BREW / HTTP/1.1\r\n\r\n".data))).head? =
      some "BREW / HTTP/1.1".data ∧
    (splitWS "BREW / HTTP/1.1".data).head? = some "BREW".data ∧
    "BREW".data ≠ "GET".data ∧ "BREW".data ≠ "POST".data ∧
    ∃ e, fromRaw (utf8EncodeChars "BREW / HTTP/1.1\r\n\r\n".data) =
      .error e :=
  ⟨by decide, by decide, by decide, by decide,
    fromRaw_unknown_method_error
      (utf8EncodeChars "BREW / HTTP/1.1\r\n\r\n".data)
      "BREW / HTTP/1.1".data "BREW".data
      (by decide) (by decide) (by decide) (by decide)⟩

/-- `methodFromString` can only fail with the unknown-method error. -/
theorem methodFromString_error_shape (m : Str) (e : ParseErr)
    (h : methodFromString m = .error e) : e = .panicUnknownMethod m := by
  unfold methodFromString at h
  split at h
  · simp at h
  · split at h
    · simp at h
    · simpa using (Except.error.inj h).symm

/-- The request line splits into exactly three tokens iff the token
list has the literal three-element shape. -/
theorem length_eq_three_iff (ts : List Str) :
    ts.length = 3 ↔ ∃ m p v, ts = [m, p, v] := by
  constructor
  · intro h
    match ts, h with
    | [m, p, v], _ => exact ⟨m, p, v, rfl⟩
  · rintro ⟨m, p, v, rfl⟩
    rfl

/-- C8: parsing fails with the malformed-request-line error exactly
when the first CRLF-split line does not have exactly 3
whitespace-separated tokens; it fails with the empty-request error
exactly when there are no lines (which never happens — `split` always
returns at least one segment, so both sides of that equivalence are
false); and when parsing succeeds on a 3-token request line, the three
tokens become the method, path and http version of the request. -/
theorem fromRaw_request_line (raw : List Nat) (l : Str)
    (hl : (splitCRLF (utf8LossyAux raw)).head? = some l) :
    (fromRaw raw = .error .emptyRequest ↔
      splitCRLF (utf8LossyAux raw) = []) ∧
    (fromRaw raw = .error .malformedRequestLine ↔
      (splitWS l).length ≠ 3) ∧
    (∀ r m p v, splitWS l = [m, p, v] → fromRaw raw = .ok r →
      methodToString r.method = m ∧ r.path = p ∧ r.httpVersion = v) := by
  refine ⟨?_, ?_, ?_⟩
  · constructor
    · intro h
      exfalso
      simp only [fromRaw, hl] at h
      cases hts : splitWS l with
      | nil => rw [hts] at h; simp at h
      | cons m ts =>
        rw [hts] at h
        match ts with
        | [] => simp at h
        | [p] => simp at h
        | p :: v :: t :: rest => simp at h
        | [p, v] =>
          dsimp only at h
          cases hmf : methodFromString m with
          | error e =>
            rw [hmf] at h
            obtain rfl := methodFromString_error_shape m e hmf
            simp at h
          | ok meth =>
            rw [hmf] at h
            cases hh : headerLoop (List.drop 1
                (splitCRLF (utf8LossyAux raw))) 1 [] with
            | error e2 =>
              rw [hh] at h
              obtain ⟨line, rfl⟩ := headerLoop_error_shape _ _ _ _ hh
              simp at h
            | ok pr =>
              rw [hh] at h
              simp at h
    · intro h
      exact absurd h (splitCRLF_ne_nil _)
  · constructor
    · intro h hlen
      obtain ⟨m, p, v, hts⟩ := (length_eq_three_iff _).mp hlen
      simp only [fromRaw, hl] at h
      rw [hts] at h
      dsimp only at h
      cases hmf : methodFromString m with
      | error e =>
        rw [hmf] at h
        obtain rfl := methodFromString_error_shape m e hmf
        simp at h
      | ok meth =>
        rw [hmf] at h
        cases hh : headerLoop (List.drop 1
            (splitCRLF (utf8LossyAux raw))) 1 [] with
        | error e2 =>
          rw [hh] at h
          obtain ⟨line, rfl⟩ := headerLoop_error_shape _ _ _ _ hh
          simp at h
        | ok pr =>
          rw [hh] at h
          simp at h
    · intro hlen
      simp only [fromRaw, hl]
      cases hts : splitWS l with
      | nil => rfl
      | cons m ts =>
        rw [hts] at hlen
        match ts with
        | [] => rfl
        | [p] => rfl
        | p :: v :: t :: rest => rfl
        | [p, v] => exact absurd rfl hlen
  · intro r m p v hts hok
    simp only [fromRaw, hl] at hok
    rw [hts] at hok
    dsimp only at hok
    cases hmf : methodFromString m with
    | error e => rw [hmf] at hok; simp at hok
    | ok mm =>
      rw [hmf] at hok
      cases hh : headerLoop (List.drop 1
          (splitCRLF (utf8LossyAux raw))) 1 [] with
      | error e2 => rw [hh] at hok; simp at hok
      | ok hb =>
        rw [hh] at hok
        simp only [Except.ok.injEq] at hok
        subst hok
        exact ⟨methodFromString_toString m mm hmf, rfl, rfl⟩

/-- C8 witness: a concrete two-token request line fails with the
malformed-request-line error, and a concrete well-formed request
recovers its three tokens. -/
theorem fromRaw_request_line_witness :
    (splitCRLF (utf8LossyAux
        (utf8EncodeChars "GET /x\r\n\r\n".data))).head? =
      some "GET /x".data ∧
    (fromRaw (utf8EncodeChars "GET /x\r\n\r\n".data) =
        .error .malformedRequestLine ↔
      (splitWS "GET /x".data).length ≠ 3) :=
  ⟨by decide,
    (fromRaw_request_line (utf8EncodeChars "GET /x\r\n\r\n".data)
      "GET /x".data (by decide)).2.1⟩

/-- C5: the body is gzip-compressed and `encoding` set to `"gzip"`
exactly when the literal token `gzip` occurs among the comma-split,
trimmed `Accept-Encoding` tokens and content is present (given a
content with no prior encoding, as the dispatcher always produces —
the final conjunct); without the token negotiation is the identity,
and with absent content it is a no-op. -/
theorem negotiate_gzip_iff (req : RequestM) (gz : Gzipper) (st : Status)
    (ct : Option ContentM)
    (henc : ∀ c, ct = some c → c.encoding = none) :
    ((acceptedEncodings req).contains "gzip".data = false →
      negotiate req gz st ct = (st, ct)) ∧
    (ct = none → negotiate req gz st ct = (st, none)) ∧
    (∀ c, ct = some c →
      (acceptedEncodings req).contains "gzip".data = true →
      ∀ p, gz c.body = .ok p →
        negotiate req gz st ct =
          (st, some ⟨c.contentType, p, some "gzip".data⟩)) ∧
    (∀ c', (negotiate req gz st ct).2 = some c' →
      (c'.encoding = some "gzip".data ↔
        ((acceptedEncodings req).contains "gzip".data = true ∧
          ct ≠ none))) ∧
    (∀ rootDir fs st2 ct2 fs2,
      dispatch req rootDir fs = some (st2, ct2, fs2) →
      ∀ c, ct2 = some c → c.encoding = none) := by
  refine ⟨?_, ?_, ?_, ?_, ?_⟩
  · intro hng
    unfold negotiate
    rw [hng]
    simp
  · intro hct
    subst hct
    exact negotiate_none req gz st
  · intro c hct hacc p hgz
    subst hct
    unfold negotiate
    rw [hacc]
    simp [hgz]
  · intro c' hc'
    cases hacc : (acceptedEncodings req).contains "gzip".data with
    | false =>
      unfold negotiate at hc'
      rw [hacc] at hc'
      simp only [Bool.false_eq_true, if_false] at hc'
      constructor
      · intro he
        exfalso
        have := henc c' hc'
        rw [this] at he
        cases he
      · rintro ⟨habs, -⟩
        cases habs
    | true =>
      constructor
      · intro _
        refine ⟨rfl, ?_⟩
        intro hnone
        subst hnone
        rw [negotiate_none] at hc'
        simp at hc'
      · rintro ⟨-, hne⟩
        cases hct : ct with
        | none => exact absurd hct hne
        | some c =>
          unfold negotiate at hc'
          rw [hacc, hct] at hc'
          simp only [if_true] at hc'
          cases hgz : gz c.body with
          | ok payload =>
            rw [hgz] at hc'
            simp only [Option.some.injEq] at hc'
            rw [← hc']
          | error e =>
            rw [hgz] at hc'
            simp at hc'
  · exact fun rootDir fs st2 ct2 fs2 hd c hc =>
      dispatch_encoding_none req rootDir fs st2 ct2 fs2 hd c hc

/-- The concrete request of the C5 witness: it advertises
`Accept-Encoding: deflate, gzip`. -/
def wReqC5 : RequestM :=
  ⟨.get, "/echo/a".data, "HTTP/1.1".data,
    [("Accept-Encoding".data, "deflate, gzip".data)], none⟩

/-- C5 witness: a request advertising `Accept-Encoding: deflate, gzip`
with concrete text content satisfies the hypothesis and all the
negotiation conclusions. -/
theorem negotiate_gzip_iff_witness :
    (∀ c, (some ⟨.text .plain, [97], none⟩ : Option ContentM) = some c →
      c.encoding = none) ∧
    ((acceptedEncodings wReqC5).contains "gzip".data = true ∧
      negotiate wReqC5 gzOk .ok (some ⟨.text .plain, [97], none⟩) =
        (.ok, some ⟨.text .plain, [97], some "gzip".data⟩)) :=
  ⟨fun c hc => by cases hc; rfl,
    by decide,
    (negotiate_gzip_iff wReqC5 gzOk .ok (some ⟨.text .plain, [97], none⟩)
      (fun c hc => by cases hc; rfl)).2.2.1
      ⟨.text .plain, [97], none⟩ rfl (by decide) [97] rfl⟩

/-- C6: a GET request under `/files/` whose file read fails — for any
reason: absent file or non-UTF-8 content, the failure modes the
filesystem model can express — produces status 404 Not Found with no
content (never 500), and leaves the filesystem unchanged. -/
theorem files_get_read_failure (req : RequestM) (rootDir : Str)
    (gz : Gzipper) (fs : FS) (t : Str)
    (hpath : req.path = "/files/".data ++ t)
    (hm : req.method = .get)
    (hfail : readFileContent fs
      (rootDir ++ trimStartMatches "/files/".data req.path) = .error ()) :
    handleRequest req rootDir gz fs =
      some (⟨req.httpVersion, .notFound, [], none⟩, fs) := by
  have e7 : "/files/".data = ['/', 'f', 'i', 'l', 'e', 's', '/'] := rfl
  have hroot : ¬(req.path = "/".data) := by
    rw [hpath, e7]
    simp
  have hua : ¬(req.path = "/user-agent".data) := by
    rw [hpath, e7]
    intro hcontra
    rw [show "/user-agent".data =
      ['/', 'u', 's', 'e', 'r', '-', 'a', 'g', 'e', 'n', 't'] from rfl]
      at hcontra
    simp at hcontra
  have hecho : ("/echo/".data).isPrefixOf req.path = false := by
    rw [hpath, e7]
    rw [show "/echo/".data = ['/', 'e', 'c', 'h', 'o', '/'] from rfl]
    simp [List.isPrefixOf]
  have hfiles : ("/files/".data).isPrefixOf req.path = true := by
    rw [hpath]
    exact List.isPrefixOf_iff_prefix.mpr ⟨t, rfl⟩
  unfold handleRequest dispatch
  rw [if_neg hroot, if_neg hua, hecho, hfiles]
  simp only [Bool.false_eq_true, if_false, if_true]
  rw [hm, hfail]
  simp only
  rw [negotiate_none]
  rfl

/-- C6 witness: `GET /files/missing` on the empty filesystem yields
404 with no content. -/
theorem files_get_read_failure_witness :
    ("/files/missing".data : Str) = "/files/".data ++ "missing".data ∧
    readFileContent fsEmpty
      ("/tmp/".data ++ trimStartMatches "/files/".data
        "/files/missing".data) = .error () ∧
    handleRequest ⟨.get, "/files/missing".data, "HTTP/1.1".data, [], none⟩
        "/tmp/".data gzOk fsEmpty =
      some (⟨"HTTP/1.1".data, .notFound, [], none⟩, fsEmpty) :=
  ⟨by decide, by rfl,
    files_get_read_failure
      ⟨.get, "/files/missing".data, "HTTP/1.1".data, [], none⟩
      "/tmp/".data gzOk fsEmpty "missing".data (by decide) rfl (by rfl)⟩

/-- C10: every route except `/files/` ignores the request method: for
any request whose path does not start with `"/files/"` (so `/`,
`/user-agent`, `/echo/...` and all unmatched paths), the handler
returns identical results for GET and POST. -/
theorem handleRequest_method_irrelevant (req : RequestM) (rootDir : Str)
    (gz : Gzipper) (fs : FS)
    (h : ("/files/".data).isPrefixOf req.path = false) :
    handleRequest { req with method := .get } rootDir gz fs =
      handleRequest { req with method := .post } rootDir gz fs := by
  unfold handleRequest dispatch
  simp only [RequestM.mk.injEq]
  by_cases h1 : req.path = "/".data
  · simp [h1, negotiate, acceptedEncodings]
  · by_cases h2 : req.path = "/user-agent".data
    · simp [h1, h2, negotiate, acceptedEncodings]
    · by_cases h3 : ("/echo/".data).isPrefixOf req.path
      · simp [h1, h2, h3, negotiate, acceptedEncodings]
      · simp [h1, h2, h3, h, negotiate, acceptedEncodings]

/-- C10 witness: for the unmatched path `/nope`, GET and POST produce
the same response. -/
theorem handleRequest_method_irrelevant_witness :
    ("/files/".data).isPrefixOf "/nope".data = false ∧
    handleRequest ⟨.get, "/nope".data, "HTTP/1.1".data, [], none⟩
        [] gzOk fsEmpty =
      handleRequest ⟨.post, "/nope".data, "HTTP/1.1".data, [], none⟩
        [] gzOk fsEmpty :=
  ⟨by decide,
    handleRequest_method_irrelevant
      ⟨.get, "/nope".data, "HTTP/1.1".data, [], none⟩ [] gzOk fsEmpty
      (by decide)⟩

/-- C3 counterexample: the claim says the echo body is the path suffix
after removing the single leading `"/echo/"` prefix, so for path
`"/echo//echo/x"` the body would be `"/echo/x"`.  The code uses
`trim_start_matches`, which removes the prefix repeatedly: the actual
body is `"x"`, which differs from the claimed `"/echo/x"`. -/
theorem echo_route_single_strip_counterexample :
    (handleRequest ⟨.get, "/echo//echo/x".data, "HTTP/1.1".data, [], none⟩
        [] gzOk fsEmpty).map (fun r => r.1.content.map fun c => c.body) =
      some (some (utf8EncodeChars "x".data)) ∧
    some (some (utf8EncodeChars "x".data)) ≠
      some (some (utf8EncodeChars "/echo/x".data)) := by
  constructor
  · decide
  · decide

/-- C3 (amended): for every request whose path starts with `"/echo/"`
and that does not negotiate compression, the handler returns 200 with
`text/plain` content whose body is, byte-for-byte, the path with all
leading `"/echo/"` occurrences repeatedly removed (Rust
`trim_start_matches` semantics — for `"/echo//echo/x"` this is `"x"`,
not `"/echo/x"`), and the emitted `Content-Length` is the byte length
of that body. -/
theorem echo_route (req : RequestM) (rootDir : Str) (gz : Gzipper)
    (fs : FS) (t : Str)
    (hpath : req.path = "/echo/".data ++ t)
    (hng : (acceptedEncodings req).contains "gzip".data = false) :
    handleRequest req rootDir gz fs =
      some (⟨req.httpVersion, .ok,
        [("Content-Type".data, "text/plain".data),
         ("Content-Length".data,
           natToStr (utf8EncodeChars
             (trimStartMatches "/echo/".data req.path)).length)],
        some ⟨.text .plain,
          utf8EncodeChars (trimStartMatches "/echo/".data req.path),
          none⟩⟩, fs) := by
  have e6 : "/echo/".data = ['/', 'e', 'c', 'h', 'o', '/'] := rfl
  have hroot : ¬(req.path = "/".data) := by
    rw [hpath, e6]
    simp
  have hua : ¬(req.path = "/user-agent".data) := by
    rw [hpath, e6]
    intro hcontra
    rw [show "/user-agent".data =
      ['/', 'u', 's', 'e', 'r', '-', 'a', 'g', 'e', 'n', 't'] from rfl]
      at hcontra
    simp at hcontra
  have hecho : ("/echo/".data).isPrefixOf req.path = true := by
    rw [hpath]
    exact List.isPrefixOf_iff_prefix.mpr ⟨t, rfl⟩
  unfold handleRequest dispatch
  rw [if_neg hroot, if_neg hua, hecho]
  simp only [if_true]
  unfold negotiate
  rw [hng]
  simp only [Bool.false_eq_true, if_false]
  simp [mkHeaders, hmInsert, contentTypeToString]

/-- C3 witness: `GET /echo/abc` with no `Accept-Encoding` yields 200,
`text/plain`, body `"abc"` and `Content-Length: 3`. -/
theorem echo_route_witness :
    ("/echo/abc".data : Str) = "/echo/".data ++ "abc".data ∧
    (acceptedEncodings
      ⟨.get, "/echo/abc".data, "HTTP/1.1".data, [], none⟩).contains
        "gzip".data = false ∧
    handleRequest ⟨.get, "/echo/abc".data, "HTTP/1.1".data, [], none⟩
        [] gzOk fsEmpty =
      some (⟨"HTTP/1.1".data, .ok,
        [("Content-Type".data, "text/plain".data),
         ("Content-Length".data,
           natToStr (utf8EncodeChars
             (trimStartMatches "/echo/".data "/echo/abc".data)).length)],
        some ⟨.text .plain,
          utf8EncodeChars (trimStartMatches "/echo/".data "/echo/abc".data),
          none⟩⟩, fsEmpty) :=
  ⟨by decide, by decide,
    echo_route ⟨.get, "/echo/abc".data, "HTTP/1.1".data, [], none⟩
      [] gzOk fsEmpty "abc".data (by decide) (by decide)⟩

/-- C1 counterexample: the round trip is not byte-for-byte for
non-UTF-8 bodies.  POSTing the single byte `0xFF` to `/files/a` and
GETting it back yields status 200 but body `EF BF BD` (the UTF-8
replacement character the parser's lossy decoding substituted), not
`FF`. -/
theorem files_roundtrip_counterexample :
    ((processConnection
        (utf8EncodeChars "POST /files/a HTTP/1.1\r\n\r\n".data ++ [0xFF])
        [] gzOk fsEmpty).bind
      (fun r => processConnection
        (utf8EncodeChars "GET /files/a HTTP/1.1\r\n\r\n".data)
        [] gzOk r.2)).map
      (fun r => (getStatusCode r.1.status, r.1.content.map fun c => c.body)) =
      some (200, some [0xEF, 0xBF, 0xBD]) ∧
    (some (200, some [0xEF, 0xBF, 0xBD]) :
        Option (Nat × Option (List Nat))) ≠ some (200, some [0xFF]) := by
  constructor
  · decide
  · decide

/-- Parsing a header-less request `"{mtok} {p} HTTP/1.1\r\n\r\n{bdy}"`
made of whitespace-free tokens: the three tokens become method, path
and version, the headers are empty, and the body is everything after
the blank line. -/
theorem fromRaw_simple (mtok p bdy : Str) (meth : HttpMethod)
    (hmeth : methodFromString mtok = .ok meth)
    (hmt : ∀ c ∈ mtok, rustIsWhitespace c = false) (hmtne : mtok ≠ [])
    (hp : ∀ c ∈ p, rustIsWhitespace c = false) (hpne : p ≠ []) :
    fromRaw (utf8EncodeChars
      ((mtok ++ ' ' :: (p ++ ' ' :: "HTTP/1.1".data)) ++
        '\r' :: '\n' :: '\r' :: '\n' :: bdy)) =
      .ok ⟨meth, p, "HTTP/1.1".data, [], some bdy⟩ := by
  have hv : ∀ c ∈ "HTTP/1.1".data, rustIsWhitespace c = false := by decide
  have hvne : ("HTTP/1.1".data : Str) ≠ [] := by decide
  have hnoCR : '\r' ∉ mtok ++ ' ' :: (p ++ ' ' :: "HTTP/1.1".data) := by
    intro hmem
    rcases List.mem_append.mp hmem with hc | hc
    · exact absurd (hmt _ hc) (by decide)
    · rcases List.mem_cons.mp hc with hc | hc
      · exact absurd hc (by decide)
      · rcases List.mem_append.mp hc with hc | hc
        · exact absurd (hp _ hc) (by decide)
        · rcases List.mem_cons.mp hc with hc | hc
          · exact absurd hc (by decide)
          · exact absurd hc (by decide)
  have hlines : splitCRLF
      ((mtok ++ ' ' :: (p ++ ' ' :: "HTTP/1.1".data)) ++
        '\r' :: '\n' :: '\r' :: '\n' :: bdy) =
      (mtok ++ ' ' :: (p ++ ' ' :: "HTTP/1.1".data)) ::
        [] :: splitCRLF bdy := by
    rw [splitCRLF_append_crlf _ _ hnoCR, splitCRLF_crlf_cons]
  have hlen : 0 < (splitCRLF bdy).length := by
    cases hsp : splitCRLF bdy with
    | nil => exact absurd hsp (splitCRLF_ne_nil bdy)
    | cons a l => simp
  simp only [fromRaw, utf8LossyAux_encode, hlines, List.head?_cons,
    splitWS_three mtok p "HTTP/1.1".data hmt hmtne hp hpne hv hvne,
    List.drop_succ_cons, List.drop_zero, List.length_cons]
  rw [hmeth]
  rw [show headerLoop ([] :: splitCRLF bdy) 1 [] =
    .ok ([], 2) from by simp [headerLoop]]
  dsimp only
  rw [if_pos (by omega)]
  simp only [List.drop_succ_cons, List.drop_zero, intercalate_splitCRLF]

/-- The filesystem state after the POST of the C1 round trip: the
target file holds the UTF-8 bytes of the parsed body. -/
def fsAfterPost (fs : FS) (rootDir f s : Str) : FS :=
  fun pth =>
    if pth = rootDir ++ trimStartMatches "/files/".data
        ("/files/".data ++ f) then
      some (utf8EncodeChars s)
    else fs pth

/-- C1 (amended): the `POST /files/f` → `GET /files/f` round trip is
byte-for-byte for every body `B` that is a valid UTF-8 byte sequence
(an encoding `utf8EncodeChars s` of some string `s`; the parser's
lossy decoding and the writer's re-encoding make any other byte
sequence unrecoverable, as the counterexample shows) and every
whitespace-free file name `f`: the POST answers 201 Created, and the
subsequent GET answers 200 OK with body exactly `B`. -/
theorem files_roundtrip (f s : Str) (rootDir : Str) (gz : Gzipper)
    (fs : FS) (hf : ∀ c ∈ f, rustIsWhitespace c = false) :
    processConnection
        (utf8EncodeChars ("POST /files/".data ++ f ++ " HTTP/1.1\r\n\r\n".data) ++
          utf8EncodeChars s) rootDir gz fs =
      some (⟨"HTTP/1.1".data, .created, [], none⟩,
        fsAfterPost fs rootDir f s) ∧
    processConnection
        (utf8EncodeChars ("GET /files/".data ++ f ++ " HTTP/1.1\r\n\r\n".data))
        rootDir gz (fsAfterPost fs rootDir f s) =
      some (⟨"HTTP/1.1".data, .ok,
        [("Content-Type".data, "application/octet-stream".data),
         ("Content-Length".data, natToStr (utf8EncodeChars s).length)],
        some ⟨.application .octetStream, utf8EncodeChars s, none⟩⟩,
        fsAfterPost fs rootDir f s) := by
  have hfp : ∀ c ∈ "/files/".data ++ f, rustIsWhitespace c = false := by
    intro c hc
    rcases List.mem_append.mp hc with hc | hc
    · have hlit : ∀ d ∈ "/files/".data, rustIsWhitespace d = false := by
        decide
      exact hlit c hc
    · exact hf c hc
  have hfpne : ("/files/".data ++ f : Str) ≠ [] := by simp
  have e7 : "/files/".data = ['/', 'f', 'i', 'l', 'e', 's', '/'] := rfl
  have hroot : ¬(("/files/".data ++ f : Str) = "/".data) := by
    rw [e7]
    simp
  have hua : ¬(("/files/".data ++ f : Str) = "/user-agent".data) := by
    rw [e7]
    intro hcontra
    rw [show "/user-agent".data =
      ['/', 'u', 's', 'e', 'r', '-', 'a', 'g', 'e', 'n', 't'] from rfl]
      at hcontra
    simp at hcontra
  have hecho : ("/echo/".data).isPrefixOf ("/files/".data ++ f) = false := by
    rw [e7, show "/echo/".data = ['/', 'e', 'c', 'h', 'o', '/'] from rfl]
    simp [List.isPrefixOf]
  have hfiles : ("/files/".data).isPrefixOf ("/files/".data ++ f) = true :=
    List.isPrefixOf_iff_prefix.mpr ⟨f, rfl⟩
  constructor
  · -- the POST
    have hshape : ("POST /files/".data ++ f ++ " HTTP/1.1\r\n\r\n".data ++ s
          : Str)
        = ("POST".data ++ ' ' :: (("/files/".data ++ f) ++ ' ' ::
            "HTTP/1.1".data)) ++ '\r' :: '\n' :: '\r' :: '\n' :: s := by
      rw [show "POST /files/".data =
          "POST".data ++ ' ' :: "/files/".data from rfl,
        show " HTTP/1.1\r\n\r\n".data =
          ' ' :: ("HTTP/1.1".data ++ ['\r', '\n', '\r', '\n']) from rfl]
      simp [List.append_assoc]
    rw [← utf8EncodeChars_append, hshape]
    simp only [processConnection]
    rw [fromRaw_simple "POST".data ("/files/".data ++ f) s .post
      (by decide) (by decide) (by decide) hfp hfpne]
    dsimp only
    unfold handleRequest dispatch
    rw [if_neg hroot, if_neg hua, hecho, hfiles]
    simp only [Bool.false_eq_true, if_false, if_true]
    rw [negotiate_none]
    rfl
  · -- the GET
    have hshape : ("GET /files/".data ++ f ++ " HTTP/1.1\r\n\r\n".data
          : Str)
        = ("GET".data ++ ' ' :: (("/files/".data ++ f) ++ ' ' ::
            "HTTP/1.1".data)) ++ '\r' :: '\n' :: '\r' :: '\n' :: [] := by
      rw [show "GET /files/".data =
          "GET".data ++ ' ' :: "/files/".data from rfl,
        show " HTTP/1.1\r\n\r\n".data =
          ' ' :: ("HTTP/1.1".data ++ ['\r', '\n', '\r', '\n']) from rfl]
      simp [List.append_assoc]
    rw [hshape]
    simp only [processConnection]
    rw [fromRaw_simple "GET".data ("/files/".data ++ f) [] .get
      (by decide) (by decide) (by decide) hfp hfpne]
    dsimp only
    unfold handleRequest dispatch
    rw [if_neg hroot, if_neg hua, hecho, hfiles]
    simp only [Bool.false_eq_true, if_false, if_true]
    rw [show readFileContent (fsAfterPost fs rootDir f s)
        (rootDir ++ trimStartMatches "/files/".data
          ("/files/".data ++ f)) =
        .ok ⟨.application .octetStream, utf8EncodeChars s, none⟩ from by
      unfold readFileContent fsAfterPost
      rw [if_pos rfl]
      simp [utf8LossyAux_encode]]
    dsimp only
    rw [show negotiate ⟨.get, "/files/".data ++ f, "HTTP/1.1".data, [],
        some []⟩ gz .ok
        (some ⟨.application .octetStream, utf8EncodeChars s, none⟩) =
        (.ok, some ⟨.application .octetStream, utf8EncodeChars s, none⟩)
      from by
      unfold negotiate
      rw [show acceptedEncodings ⟨.get, "/files/".data ++ f,
        "HTTP/1.1".data, [], some []⟩ = [] from rfl]
      simp]
    simp [mkHeaders, hmInsert, contentTypeToString]

/-- C1 witness: the round trip at file name `a`, body `"hé"` (a valid
two-byte UTF-8 sequence) and root `/tmp/`. -/
theorem files_roundtrip_witness :
    (∀ c ∈ ("a".data : Str), rustIsWhitespace c = false) ∧
    (processConnection
        (utf8EncodeChars ("POST /files/".data ++ "a".data ++
          " HTTP/1.1\r\n\r\n".data) ++ utf8EncodeChars "hé".data)
        "/tmp/".data gzOk fsEmpty =
      some (⟨"HTTP/1.1".data, .created, [], none⟩,
        fsAfterPost fsEmpty "/tmp/".data "a".data "hé".data) ∧
     processConnection
        (utf8EncodeChars ("GET /files/".data ++ "a".data ++
          " HTTP/1.1\r\n\r\n".data))
        "/tmp/".data gzOk
        (fsAfterPost fsEmpty "/tmp/".data "a".data "hé".data) =
      some (⟨"HTTP/1.1".data, .ok,
        [("Content-Type".data, "application/octet-stream".data),
         ("Content-Length".data,
           natToStr (utf8EncodeChars "hé".data).length)],
        some ⟨.application .octetStream, utf8EncodeChars "hé".data,
          none⟩⟩,
        fsAfterPost fsEmpty "/tmp/".data "a".data "hé".data)) :=
  ⟨by decide,
    files_roundtrip "a".data "hé".data "/tmp/".data gzOk fsEmpty
      (by decide)⟩

end HttpServer
